import Mathlib

/-! Shallow embedding of the two analysis scripts of the repository:
`analyze_ptx.py` (marker-string search over a binary buffer) and
`ptx_structure_analyzer.py` (printable-string extraction, 4-byte field
guessing, and byte-level file comparison).  A buffer is a `List Nat` of
byte values; a search term is a `List Nat` of Unicode code points. -/

namespace PTX

/-- UTF-8 encoding of a single code point, as produced by Python's
`str.encode('utf-8')` for each character of a term. -/
def utf8EncodeChar (c : Nat) : List Nat :=
  if c < 128 then [c]
  else if c < 2048 then [192 + c / 64, 128 + c % 64]
  else if c < 65536 then [224 + c / 4096, 128 + c / 64 % 64, 128 + c % 64]
  else [240 + c / 262144, 128 + c / 4096 % 64, 128 + c / 64 % 64, 128 + c % 64]

/-- Embeds `term.encode('utf-8')` from `analyze_ptx.py` line 15. -/
def utf8Encode (term : List Nat) : List Nat :=
  (term.map utf8EncodeChar).flatten

/-- UTF-16 little-endian encoding of a single code point (surrogate pair
for code points at or above 0x10000). -/
def utf16leEncodeChar (c : Nat) : List Nat :=
  if c < 65536 then [c % 256, c / 256]
  else
    [(55296 + (c - 65536) / 1024) % 256, (55296 + (c - 65536) / 1024) / 256,
     (56320 + (c - 65536) % 1024) % 256, (56320 + (c - 65536) % 1024) / 256]

/-- Embeds `term.encode('utf-16le')` from `analyze_ptx.py` line 16. -/
def utf16leEncode (term : List Nat) : List Nat :=
  (term.map utf16leEncodeChar).flatten

/-- State of a streaming strict UTF-8 decoder: the code points decoded so
far, and the pending multi-byte sequence, if any, as
`(partial code point, continuation bytes still expected,
admissible lower bound, admissible upper bound for the next byte)`. -/
structure Utf8DecState where
  done : List Nat
  pend : Option (Nat × Nat × Nat × Nat)

/-- One step of strict UTF-8 decoding on byte `b`; `none` is the failed
state.  Lead bytes 0xC0-0xC1 and 0xF5-0xFF are invalid, and the bounds on
the first continuation byte of a sequence rule out overlong forms,
surrogates, and code points above 0x10FFFF, exactly as Python's strict
decoder does. -/
def utf8Step (st : Option Utf8DecState) (b : Nat) : Option Utf8DecState :=
  match st with
  | none => none
  | some s =>
    match s.pend with
    | some (cp, n, lo, hi) =>
      if lo ≤ b ∧ b < hi then
        if n = 1 then some ⟨s.done ++ [cp * 64 + (b - 128)], none⟩
        else some ⟨s.done, some (cp * 64 + (b - 128), n - 1, 128, 192)⟩
      else none
    | none =>
      if b < 128 then some ⟨s.done ++ [b], none⟩
      else if b < 194 then none
      else if b < 224 then some ⟨s.done, some (b - 192, 1, 128, 192)⟩
      else if b < 240 then
        some ⟨s.done, some (b - 224, 2,
          if b = 224 then 160 else 128, if b = 237 then 160 else 192)⟩
      else if b < 245 then
        some ⟨s.done, some (b - 240, 3,
          if b = 240 then 144 else 128, if b = 244 then 144 else 192)⟩
      else none

/-- Strict UTF-8 decoding of a byte list into code points, as performed by
Python's `bytes.decode('utf-8')` in `ptx_structure_analyzer.py` line 35:
`none` models a raised `UnicodeDecodeError` (invalid lead or continuation
bytes, truncated sequences, overlong forms and surrogates are rejected). -/
def utf8Decode (l : List Nat) : Option (List Nat) :=
  match l.foldl utf8Step (some ⟨[], none⟩) with
  | some ⟨cps, none⟩ => some cps
  | _ => none

/-- The two encodings `find_marker_strings` searches under
(`'UTF-8'` and `'UTF-16LE'` in the result records). -/
inductive Encoding where
  | narrow
  | wideLE
  deriving DecidableEq

/-- One result record of `find_marker_strings`
(`analyze_ptx.py` lines 28-33 and 45-50). -/
structure Occurrence where
  term : List Nat
  encoding : Encoding
  position : Nat
  context : List Nat
  deriving DecidableEq

/-- The pattern `pat` occurs verbatim in `data` at byte offset `k`: the
slice `data[k : k + pat.length]` exists and equals `pat`.  This is the
match notion of Python's `bytes.find`. -/
def matchesAt (data pat : List Nat) (k : Nat) : Bool :=
  decide (k + pat.length ≤ data.length) && pat.isPrefixOf (data.drop k)

/-- Embeds `data.find(needle, offset)` (`analyze_ptx.py` lines 21 and 39):
the least position at or after `offset` where `needle` occurs, `none` for
Python's sentinel `-1`.  For an empty needle Python returns `offset`
whenever `offset ≤ len(data)` and `-1` beyond, which this definition
reproduces. -/
def findSub (data needle : List Nat) (offset : Nat) : Option Nat :=
  ((List.range (data.length + 1)).filter
    (fun p => decide (offset ≤ p) && matchesAt data needle p)).head?

/-- The `while True` search loop of `analyze_ptx.py` lines 20-34 (and
38-51), collecting hit positions.  Each iteration advances the offset to
`pos + 1`, so the offset strictly increases and `data.length + 1 - offset`
bounds the remaining iterations; the `fuel` argument carries that bound to
make the recursion structural.  `searchLoop` below instantiates the bound,
and `searchLoop_eq` proves the loop-step equation fuel-free. -/
def searchLoopAux (data needle : List Nat) : Nat → Nat → List Nat
  | 0, _ => []
  | fuel + 1, offset =>
    match findSub data needle offset with
    | none => []
    | some pos => pos :: searchLoopAux data needle fuel (pos + 1)

/-- All hit positions of `needle` in `data` at or after `offset`, in the
order the Python loop reports them. -/
def searchLoop (data needle : List Nat) (offset : Nat) : List Nat :=
  searchLoopAux data needle (data.length + 1 - offset) offset

/-- Context slice around a match (`analyze_ptx.py` lines 25-27):
`data[max(0, pos - 50) : min(len(data), pos + plen + 50)]`. -/
def contextAt (data : List Nat) (pos plen : Nat) : List Nat :=
  (data.drop (pos - 50)).take (min data.length (pos + plen + 50) - (pos - 50))

/-- Results for one term: the narrow (UTF-8) occurrences followed by the
wide (UTF-16LE) occurrences, as appended by the two loops of
`find_marker_strings`. -/
def termResults (data term : List Nat) : List Occurrence :=
  (searchLoop data (utf8Encode term) 0).map
    (fun pos => ⟨term, Encoding.narrow, pos, contextAt data pos (utf8Encode term).length⟩)
  ++ (searchLoop data (utf16leEncode term) 0).map
    (fun pos => ⟨term, Encoding.wideLE, pos, contextAt data pos (utf16leEncode term).length⟩)

/-- Embeds `find_marker_strings(file_path, search_terms)` from
`analyze_ptx.py` lines 13-53, given the loaded buffer: for each term in
caller order, all narrow then all wide occurrences. -/
def find_marker_strings (data : List Nat) (terms : List (List Nat)) : List Occurrence :=
  (terms.map (termResults data)).flatten

/-- Result of the file-loading step: either the buffer, or the message of
a raised I/O exception. -/
inductive LoadResult where
  | ok (data : List Nat)
  | ioError (msg : String)

/-- The full `find_marker_strings` operation including its `try`/`except`
boundary (`analyze_ptx.py` lines 8-57): on an I/O failure the function
prints `Error reading file: ...` and returns `[]`; the pair's second
component is the printed diagnostic. -/
def find_marker_strings_io (r : LoadResult) (terms : List (List Nat)) :
    List Occurrence × Option String :=
  match r with
  | .ok data => (find_marker_strings data terms, none)
  | .ioError e => ([], some ("Error reading file: " ++ e))

/-- State of the string-accumulation loop of `analyze_file_structure`
(`ptx_structure_analyzer.py` lines 29-51): the emitted strings (start
offset and decoded code points) and the run `current_string`. -/
structure ScanState where
  strings : List (Nat × List Nat)
  current : List Nat

/-- The run-evaluation step at a terminator byte at index `i`
(`ptx_structure_analyzer.py` lines 33-39 and 44-50): emit the run when its
byte length exceeds 2, it decodes as UTF-8, and the decoded text has
length above 2 with every code point below 128; otherwise emit nothing. -/
def flushRun (i : Nat) (cur : List Nat) : List (Nat × List Nat) :=
  if 2 < cur.length then
    match utf8Decode cur with
    | some decoded =>
      if 2 < decoded.length && decoded.all (fun c => decide (c < 128)) then
        [(i - cur.length, decoded)]
      else []
    | none => []
  else []

/-- One iteration of the scanner loop body on byte `b` at index `i`:
a null byte flushes, a printable byte (32..126) extends the run, any
other byte flushes. -/
def scanStep (st : ScanState) (i b : Nat) : ScanState :=
  if b = 0 then
    { strings := st.strings ++ flushRun i st.current, current := [] }
  else if 32 ≤ b ∧ b ≤ 126 then
    { strings := st.strings, current := st.current ++ [b] }
  else
    { strings := st.strings ++ flushRun i st.current, current := [] }

/-- The `for i, byte in enumerate(data)` loop, starting at index `i`. -/
def scanGo : Nat → ScanState → List Nat → ScanState
  | _, st, [] => st
  | i, st, b :: rest => scanGo (i + 1) (scanStep st i b) rest

/-- The `strings` list computed by `analyze_file_structure`
(`ptx_structure_analyzer.py` lines 29-51).  Note the loop ends without any
flush of a still-open run. -/
def extractStrings (data : List Nat) : List (Nat × List Nat) :=
  (scanGo 0 ⟨[], []⟩ data).strings

/-- `struct.unpack('<I', w)[0]` on a 4-byte window. -/
def leVal : List Nat → Nat
  | [b0, b1, b2, b3] => b0 + 256 * b1 + 65536 * b2 + 16777216 * b3
  | _ => 0

/-- `struct.unpack('>I', w)[0]` on a 4-byte window. -/
def beVal : List Nat → Nat
  | [b0, b1, b2, b3] => 16777216 * b0 + 65536 * b1 + 256 * b2 + b3
  | _ => 0

/-- The plausibility filter of `ptx_structure_analyzer.py` lines 76-78:
`0 < value < 10000000` and `10 < value / 44100 < 300`, the division being
exact (for integers in this range Python's float division compares to 10
and 300 exactly as the rational value does). -/
def fieldFilter (v : Nat) : Bool :=
  decide (0 < v ∧ v < 10000000) &&
    decide (10 < (v : ℚ) / 44100 ∧ (v : ℚ) / 44100 < 300)

/-- Candidates contributed by the 4-byte window at offset `i`
(`ptx_structure_analyzer.py` lines 69-79): the little-endian then the
big-endian interpretation, each kept when it passes the filter, recorded
as `(offset, value, seconds)`. -/
def candidatesAt (data : List Nat) (i : Nat) : List (Nat × Nat × ℚ) :=
  ([leVal ((data.drop i).take 4), beVal ((data.drop i).take 4)].filter fieldFilter).map
    (fun v => (i, v, (v : ℚ) / 44100))

/-- Python's `range(0, m, 4)`: the multiples of 4 strictly below `m`
(`m` is `len(data) - 4` at the call site; a nonpositive stop yields the
empty range exactly as truncated subtraction does). -/
def pyStride4 (m : Nat) : List Nat :=
  (List.range ((m + 3) / 4)).map (fun k => k * 4)

/-- The `potential_markers` list of `analyze_file_structure`
(`ptx_structure_analyzer.py` lines 67-81): scan windows at
`range(0, len(data) - 4, 4)` and collect plausible candidates. -/
def guessFields (data : List Nat) : List (Nat × Nat × ℚ) :=
  ((pyStride4 (data.length - 4)).map (candidatesAt data)).flatten

/-- Report produced by `compare_files` (`ptx_structure_analyzer.py`
lines 91-126).  `trailing_extra_bytes` holds the first 50 trailing bytes
and the full trailing length, when reported. -/
structure DiffReport where
  size_a : Nat
  size_b : Nat
  size_delta : Int
  first_difference_offset : Option Nat
  context_a : List Nat
  context_b : List Nat
  trailing_extra_bytes : Option (List Nat × Nat)

/-- Embeds `compare_files(file1, file2)` on the two loaded buffers:
sizes and delta, the first index where the buffers differ with ±20-byte
context clamped to `min(len, len)` on the right, and the extra data of
the second buffer only when it is the longer one (lines 116-119). -/
def compare_files (a b : List Nat) : DiffReport :=
  let minLen := min a.length b.length
  let fd := (List.range minLen).find? (fun i => a.getD i 0 != b.getD i 0)
  let ctx := fun (d : List Nat) =>
    match fd with
    | some i => (d.drop (i - 20)).take (min minLen (i + 20) - (i - 20))
    | none => []
  { size_a := a.length
    size_b := b.length
    size_delta := (b.length : Int) - (a.length : Int)
    first_difference_offset := fd
    context_a := ctx a
    context_b := ctx b
    trailing_extra_bytes :=
      if a.length < b.length then
        some ((b.drop a.length).take 50, (b.drop a.length).length)
      else none }

/-- The full `compare_files` operation including its `try`/`except`
boundary (`ptx_structure_analyzer.py` lines 95-126): an I/O failure on
either file yields no report and the printed
`Error comparing files: ...` diagnostic. -/
def compare_files_io (r1 r2 : LoadResult) : Option DiffReport × Option String :=
  match r1, r2 with
  | .ok d1, .ok d2 => (some (compare_files d1 d2), none)
  | .ioError e, _ => (none, some ("Error comparing files: " ++ e))
  | _, .ioError e => (none, some ("Error comparing files: " ++ e))

/-! Helper lemmas about `findSub` and the search loop. -/

/-- Head of a filtered ascending range is a satisfying element and the
least one at or above the start. -/
theorem head_filter_range'_spec (p : Nat → Bool) :
    ∀ n s pos, ((List.range' s n).filter p).head? = some pos →
      p pos = true ∧ s ≤ pos ∧ pos < s + n ∧ ∀ q, s ≤ q → q < pos → p q = false := by
  intro n
  induction n with
  | zero => intro s pos h; simp [List.range'] at h
  | succ n ih =>
    intro s pos h
    rw [List.range'_succ, List.filter_cons] at h
    by_cases hp : p s = true
    · rw [if_pos hp] at h
      simp only [List.head?_cons, Option.some.injEq] at h
      subst h
      exact ⟨hp, Nat.le_refl _, by omega, fun q hq1 hq2 => by omega⟩
    · rw [if_neg hp] at h
      obtain ⟨h1, h2, h3, h4⟩ := ih (s + 1) pos h
      refine ⟨h1, by omega, by omega, fun q hq1 hq2 => ?_⟩
      rcases Nat.eq_or_lt_of_le hq1 with rfl | hlt
      · exact Bool.eq_false_iff.mpr hp
      · exact h4 q hlt hq2

/-- An empty head of a filtered ascending range means no element of the
range satisfies the predicate. -/
theorem head_filter_range'_none (p : Nat → Bool) :
    ∀ n s, ((List.range' s n).filter p).head? = none →
      ∀ q, s ≤ q → q < s + n → p q = false := by
  intro n
  induction n with
  | zero => intro s _ q hq1 hq2; omega
  | succ n ih =>
    intro s h q hq1 hq2
    rw [List.range'_succ, List.filter_cons] at h
    by_cases hp : p s = true
    · rw [if_pos hp] at h; simp at h
    · rw [if_neg hp] at h
      rcases Nat.eq_or_lt_of_le hq1 with rfl | hlt
      · exact Bool.eq_false_iff.mpr hp
      · exact ih (s + 1) h q hlt (by omega)

/-- A match at `k` fits inside the buffer, so `k` is at most the length. -/
theorem matchesAt_le_length {data pat : List Nat} {k : Nat}
    (h : matchesAt data pat k = true) : k ≤ data.length := by
  unfold matchesAt at h
  rw [Bool.and_eq_true, decide_eq_true_iff] at h
  omega

/-- What a successful `findSub` returns: a match at or after `offset`,
inside the buffer, and the least such. -/
theorem findSub_some {data needle : List Nat} {offset pos : Nat}
    (h : findSub data needle offset = some pos) :
    offset ≤ pos ∧ pos ≤ data.length ∧ matchesAt data needle pos = true ∧
      ∀ q, offset ≤ q → q < pos → matchesAt data needle q = false := by
  unfold findSub at h
  rw [List.range_eq_range'] at h
  obtain ⟨h1, _, _, h4⟩ := head_filter_range'_spec _ _ _ _ h
  rw [Bool.and_eq_true, decide_eq_true_iff] at h1
  refine ⟨h1.1, matchesAt_le_length h1.2, h1.2, fun q hq1 hq2 => ?_⟩
  have := h4 q (Nat.zero_le q) hq2
  cases hm : matchesAt data needle q
  · rfl
  · rw [hm] at this; simp [hq1] at this

/-- A failed `findSub` means no match exists at or after `offset`. -/
theorem findSub_none {data needle : List Nat} {offset : Nat}
    (h : findSub data needle offset = none) :
    ∀ k, offset ≤ k → matchesAt data needle k = false := by
  intro k hk
  cases hm : matchesAt data needle k
  · rfl
  · exfalso
    have hkl : k ≤ data.length := matchesAt_le_length hm
    unfold findSub at h
    rw [List.range_eq_range'] at h
    have := head_filter_range'_none _ _ _ h k (Nat.zero_le k) (by omega)
    rw [hm] at this
    simp [hk] at this

/-- Past the end of the buffer no occurrence can be found. -/
theorem findSub_none_of_gt {data needle : List Nat} {offset : Nat}
    (h : data.length < offset) : findSub data needle offset = none := by
  cases h' : findSub data needle offset with
  | none => rfl
  | some pos =>
    obtain ⟨h1, h2, _, _⟩ := findSub_some h'
    omega

/-- Every position the search loop reports is a genuine occurrence at or
after the starting offset. -/
theorem searchLoopAux_mem {data needle : List Nat} :
    ∀ fuel offset x, x ∈ searchLoopAux data needle fuel offset →
      offset ≤ x ∧ x ≤ data.length ∧ matchesAt data needle x = true := by
  intro fuel
  induction fuel with
  | zero => intro offset x hx; simp [searchLoopAux] at hx
  | succ fuel ih =>
    intro offset x hx
    cases h : findSub data needle offset with
    | none => simp [searchLoopAux, h] at hx
    | some pos =>
      simp only [searchLoopAux, h, List.mem_cons] at hx
      obtain ⟨h1, h2, h3, _⟩ := findSub_some h
      rcases hx with rfl | hx
      · exact ⟨h1, h2, h3⟩
      · obtain ⟨hh1, hh2, hh3⟩ := ih (pos + 1) x hx
        exact ⟨by omega, hh2, hh3⟩

/-- The loop visits at most `data.length + 1 - offset` positions: the
offset strictly increases and never escapes the buffer. -/
theorem searchLoopAux_length {data needle : List Nat} :
    ∀ fuel offset, (searchLoopAux data needle fuel offset).length ≤
      data.length + 1 - offset := by
  intro fuel
  induction fuel with
  | zero => intro offset; simp [searchLoopAux]
  | succ fuel ih =>
    intro offset
    cases h : findSub data needle offset with
    | none => simp [searchLoopAux, h]
    | some pos =>
      simp only [searchLoopAux, h, List.length_cons]
      obtain ⟨h1, h2, _, _⟩ := findSub_some h
      have := ih (pos + 1)
      omega

/-- Reported positions are strictly increasing. -/
theorem searchLoopAux_chain {data needle : List Nat} :
    ∀ fuel offset,
      List.Chain' (fun a b => a < b) (searchLoopAux data needle fuel offset) := by
  intro fuel
  induction fuel with
  | zero => intro offset; simp [searchLoopAux]
  | succ fuel ih =>
    intro offset
    cases h : findSub data needle offset with
    | none => simp [searchLoopAux, h]
    | some pos =>
      simp only [searchLoopAux, h]
      rw [List.chain'_cons']
      refine ⟨fun y hy => ?_, ih (pos + 1)⟩
      have := (searchLoopAux_mem fuel (pos + 1) y (List.mem_of_mem_head? hy)).1
      omega

/-- Any fuel at least `data.length + 1 - offset` produces the same
result, so the bound baked into `searchLoop` is harmless. -/
theorem searchLoopAux_fuel_irrel {data needle : List Nat} :
    ∀ f1 f2 offset, data.length + 1 - offset ≤ f1 →
      data.length + 1 - offset ≤ f2 →
      searchLoopAux data needle f1 offset = searchLoopAux data needle f2 offset := by
  intro f1
  induction f1 with
  | zero =>
    intro f2 offset h1 _
    have hn := @findSub_none_of_gt data needle offset (by omega)
    cases f2 with
    | zero => rfl
    | succ f2 => simp [searchLoopAux, hn]
  | succ f1 ih =>
    intro f2 offset h1 h2
    cases f2 with
    | zero =>
      have hn := @findSub_none_of_gt data needle offset (by omega)
      simp [searchLoopAux, hn]
    | succ f2 =>
      cases h : findSub data needle offset with
      | none => simp [searchLoopAux, h]
      | some pos =>
        obtain ⟨hp1, hp2, _, _⟩ := findSub_some h
        simp only [searchLoopAux, h, List.cons.injEq, true_and]
        exact ih f2 (pos + 1) (by omega) (by omega)

/-- The loop-step equation of the `while True` loop: a hit at `pos` is
followed by a search restarted at `pos + 1`. -/
theorem searchLoop_eq (data needle : List Nat) (offset : Nat) :
    searchLoop data needle offset =
      match findSub data needle offset with
      | none => []
      | some pos => pos :: searchLoop data needle (pos + 1) := by
  unfold searchLoop
  cases hf : data.length + 1 - offset with
  | zero =>
    have hn := @findSub_none_of_gt data needle offset (by omega)
    simp [searchLoopAux, hn]
  | succ f =>
    cases h : findSub data needle offset with
    | none => simp [searchLoopAux, h]
    | some pos =>
      obtain ⟨hp1, hp2, _, _⟩ := findSub_some h
      simp only [searchLoopAux, h, List.cons.injEq, true_and]
      exact searchLoopAux_fuel_irrel f (data.length + 1 - (pos + 1)) (pos + 1)
        (by omega) (by omega)

/-- Completeness of the loop: every occurrence at or after the starting
offset is reported, provided the fuel is sufficient. -/
theorem searchLoopAux_complete {data needle : List Nat} :
    ∀ fuel offset k, data.length + 1 - offset ≤ fuel → offset ≤ k →
      matchesAt data needle k = true →
      k ∈ searchLoopAux data needle fuel offset := by
  intro fuel
  induction fuel with
  | zero =>
    intro offset k h1 h2 hm
    have := matchesAt_le_length hm
    omega
  | succ fuel ih =>
    intro offset k h1 h2 hm
    cases h : findSub data needle offset with
    | none =>
      rw [findSub_none h k h2] at hm
      exact Bool.noConfusion hm
    | some pos =>
      obtain ⟨hp1, hp2, _, hmin⟩ := findSub_some h
      simp only [searchLoopAux, h, List.mem_cons]
      rcases Nat.lt_trichotomy k pos with hlt | heq | hgt
      · rw [hmin k h2 hlt] at hm
        exact Bool.noConfusion hm
      · exact Or.inl heq
      · exact Or.inr (ih (pos + 1) k (by omega) hgt hm)

/-- Completeness of `searchLoop` started at offset 0. -/
theorem searchLoop_complete {data needle : List Nat} {k : Nat}
    (hm : matchesAt data needle k = true) : k ∈ searchLoop data needle 0 := by
  unfold searchLoop
  exact searchLoopAux_complete _ 0 k (Nat.le_refl _) (Nat.zero_le k) hm

/-- Membership in the overall result list via one term's results. -/
theorem mem_find_marker {data : List Nat} {terms : List (List Nat)}
    {term : List Nat} {o : Occurrence}
    (hterm : term ∈ terms) (ho : o ∈ termResults data term) :
    o ∈ find_marker_strings data terms := by
  unfold find_marker_strings
  rw [List.mem_flatten]
  exact ⟨termResults data term, List.mem_map_of_mem _ hterm, ho⟩

/-- On a term of code points below 128, the UTF-8 encoding is the term
itself, one byte per character. -/
theorem utf8Encode_ascii : ∀ {t : List Nat}, (∀ c ∈ t, c < 128) →
    utf8Encode t = t := by
  intro t
  induction t with
  | nil => intro _; rfl
  | cons c rest ih =>
    intro h
    have hc : c < 128 := h c (List.mem_cons_self c rest)
    show (utf8EncodeChar c ++ (rest.map utf8EncodeChar).flatten) = c :: rest
    rw [utf8EncodeChar, if_pos hc]
    have := ih (fun x hx => h x (List.mem_cons_of_mem c hx))
    unfold utf8Encode at this
    rw [List.singleton_append, this]

/-- With an empty needle, `findSub` returns the offset itself whenever it
is still inside the buffer, matching Python's `bytes.find(b"", offset)`. -/
theorem findSub_empty_needle {data : List Nat} {offset : Nat}
    (h : offset ≤ data.length) : findSub data [] offset = some offset := by
  have hm : matchesAt data [] offset = true := by
    simp [matchesAt, h, List.isPrefixOf]
  cases hf : findSub data [] offset with
  | none =>
    rw [findSub_none hf offset (Nat.le_refl _)] at hm
    exact Bool.noConfusion hm
  | some pos =>
    obtain ⟨h1, _, _, hmin⟩ := findSub_some hf
    rcases Nat.eq_or_lt_of_le h1 with rfl | hlt
    · rfl
    · rw [hmin offset (Nat.le_refl _) hlt] at hm
      exact Bool.noConfusion hm

/-- With an empty needle the loop enumerates every offset from its start
through the end of the buffer. -/
theorem searchLoopAux_empty_needle {data : List Nat} :
    ∀ fuel offset, fuel = data.length + 1 - offset → offset ≤ data.length + 1 →
      searchLoopAux data [] fuel offset = List.range' offset fuel := by
  intro fuel
  induction fuel with
  | zero => intro offset _ _; simp [searchLoopAux, List.range']
  | succ fuel ih =>
    intro offset hf hoff
    have hol : offset ≤ data.length := by omega
    simp only [searchLoopAux, findSub_empty_needle hol, List.range'_succ]
    rw [ih (offset + 1) (by omega) (by omega)]

/-- Claim C1: MarkerSearch completeness.  For a term of ASCII code points
(so that its UTF-8 encoding is the single-byte encoding), if the term's
bytes occur verbatim in the buffer at offset `k`, the results contain a
narrow occurrence at `k`; if its two-byte little-endian encoding occurs
at `k`, a wide occurrence at `k` is also contained. -/
theorem marker_search_complete
    (data : List Nat) (terms : List (List Nat)) (term : List Nat) (k : Nat)
    (hmem : term ∈ terms) (hascii : ∀ c ∈ term, c < 128) :
    (matchesAt data term k = true →
      ∃ o ∈ find_marker_strings data terms,
        o.term = term ∧ o.encoding = Encoding.narrow ∧ o.position = k)
    ∧ (matchesAt data (utf16leEncode term) k = true →
      ∃ o ∈ find_marker_strings data terms,
        o.term = term ∧ o.encoding = Encoding.wideLE ∧ o.position = k) := by
  constructor
  · intro hm
    have hm' : matchesAt data (utf8Encode term) k = true := by
      rw [utf8Encode_ascii hascii]; exact hm
    have hk := searchLoop_complete hm'
    refine ⟨⟨term, Encoding.narrow, k, contextAt data k (utf8Encode term).length⟩,
      mem_find_marker hmem ?_, rfl, rfl, rfl⟩
    unfold termResults
    exact List.mem_append_left _ (List.mem_map_of_mem _ hk)
  · intro hm
    have hk := searchLoop_complete hm
    refine ⟨⟨term, Encoding.wideLE, k, contextAt data k (utf16leEncode term).length⟩,
      mem_find_marker hmem ?_, rfl, rfl, rfl⟩
    unfold termResults
    exact List.mem_append_right _ (List.mem_map_of_mem _ hk)

/-- Witness for C1 at a concrete input: in the buffer `[97, 0, 97, 0]`
the term `"a"` occurs narrowly at 0 and wide (as `97 0`) at 0. -/
theorem marker_search_complete_witness :
    (∃ o ∈ find_marker_strings [97, 0, 97, 0] [[97]],
      o.term = [97] ∧ o.encoding = Encoding.narrow ∧ o.position = 0)
    ∧ (∃ o ∈ find_marker_strings [97, 0, 97, 0] [[97]],
      o.term = [97] ∧ o.encoding = Encoding.wideLE ∧ o.position = 0) := by
  have h := marker_search_complete [97, 0, 97, 0] [[97]] [97] 0
    (by decide) (by decide)
  exact ⟨h.1 (by decide), h.2 (by decide)⟩

/-- Claim C2: MarkerSearch overlap.  Searching `b"aaa"` for the single
term `"aa"` yields exactly two narrow occurrences, at positions 0 and 1;
and in general the loop resumes exactly 1 byte past each hit's start, so
overlapping matches are preserved. -/
theorem marker_search_overlap :
    find_marker_strings [97, 97, 97] [[97, 97]] =
      [⟨[97, 97], Encoding.narrow, 0, [97, 97, 97]⟩,
       ⟨[97, 97], Encoding.narrow, 1, [97, 97, 97]⟩]
    ∧ ∀ (data needle : List Nat) (offset pos : Nat) (rest : List Nat),
        searchLoop data needle offset = pos :: rest →
        rest = searchLoop data needle (pos + 1) := by
  constructor
  · decide
  · intro data needle offset pos rest h
    rw [searchLoop_eq] at h
    cases hf : findSub data needle offset with
    | none => rw [hf] at h; exact absurd h (by simp)
    | some p =>
      rw [hf] at h
      simp only [List.cons.injEq] at h
      rw [← h.2, h.1]

/-- Witness for C2's loop-step equation at a concrete input: after the
hit at 0 in `b"aaa"`, the rest of the results is the search from 1. -/
theorem marker_search_overlap_witness :
    ([1] : List Nat) = searchLoop [97, 97, 97] [97, 97] 1 :=
  marker_search_overlap.2 [97, 97, 97] [97, 97] 0 0 [1] (by decide)

/-- Claim C8: MarkerSearch termination.  The loop reports at most
`data.length + 1 - offset` positions (each iteration strictly increases
the offset, which never exceeds the last possible occurrence), and the
reported positions are strictly increasing. -/
theorem marker_search_terminates :
    ∀ (data needle : List Nat) (offset : Nat),
      (searchLoop data needle offset).length ≤ data.length + 1 - offset
      ∧ List.Chain' (fun a b => a < b) (searchLoop data needle offset) := by
  intro data needle offset
  unfold searchLoop
  exact ⟨searchLoopAux_length _ _, searchLoopAux_chain _ _⟩

/-- Claim C10: the empty term.  Both encodings of the empty term are the
empty byte sequence, and searching for it emits an occurrence at every
offset 0 through `data.length` inclusive for each of the two encodings,
`2 * (data.length + 1)` occurrences in total. -/
theorem empty_term_search :
    ∀ data : List Nat,
      (find_marker_strings data [[]]).length = 2 * (data.length + 1)
      ∧ ∀ k, k ≤ data.length →
          (∃ o ∈ find_marker_strings data [[]],
            o.encoding = Encoding.narrow ∧ o.position = k)
          ∧ (∃ o ∈ find_marker_strings data [[]],
            o.encoding = Encoding.wideLE ∧ o.position = k) := by
  intro data
  have hs : searchLoop data [] 0 = List.range' 0 (data.length + 1) := by
    unfold searchLoop
    exact searchLoopAux_empty_needle _ 0 (by omega) (by omega)
  have hfm : find_marker_strings data [[]] =
      (List.range' 0 (data.length + 1)).map
        (fun pos => ⟨[], Encoding.narrow, pos, contextAt data pos 0⟩)
      ++ (List.range' 0 (data.length + 1)).map
        (fun pos => ⟨[], Encoding.wideLE, pos, contextAt data pos 0⟩) := by
    show (([[]].map (termResults data)).flatten : List Occurrence) = _
    rw [List.map_singleton]
    show termResults data [] ++ [].flatten = _
    rw [List.flatten_nil, List.append_nil]
    unfold termResults
    have he : utf8Encode [] = [] := rfl
    have hw : utf16leEncode [] = [] := rfl
    rw [he, hw, hs]
    rfl
  constructor
  · rw [hfm]
    rw [List.length_append, List.length_map, List.length_map, List.length_range']
    omega
  · intro k hk
    have hkmem : k ∈ List.range' 0 (data.length + 1) := by
      rw [List.mem_range'_1]
      omega
    constructor
    · exact ⟨⟨[], Encoding.narrow, k, contextAt data k 0⟩,
        by rw [hfm]; exact List.mem_append_left _ (List.mem_map_of_mem _ hkmem),
        rfl, rfl⟩
    · exact ⟨⟨[], Encoding.wideLE, k, contextAt data k 0⟩,
        by rw [hfm]; exact List.mem_append_right _ (List.mem_map_of_mem _ hkmem),
        rfl, rfl⟩

/-- Witness for C10 at the one-byte buffer `[7]`: four occurrences in
total, and both encodings occur at position 1. -/
theorem empty_term_search_witness :
    (find_marker_strings [7] [[]]).length = 2 * (([7] : List Nat).length + 1)
    ∧ ((∃ o ∈ find_marker_strings [7] [[]],
          o.encoding = Encoding.narrow ∧ o.position = 1)
       ∧ (∃ o ∈ find_marker_strings [7] [[]],
          o.encoding = Encoding.wideLE ∧ o.position = 1)) :=
  ⟨(empty_term_search [7]).1, (empty_term_search [7]).2 1 (by decide)⟩

/-! Helper lemmas about the string-table scanner. -/

/-- The scanner processes an appended buffer by first scanning the left
part, then continuing from the resulting state and index. -/
theorem scanGo_append :
    ∀ (l1 l2 : List Nat) (i : Nat) (st : ScanState),
      scanGo i st (l1 ++ l2) = scanGo (i + l1.length) (scanGo i st l1) l2 := by
  intro l1
  induction l1 with
  | nil => intro l2 i st; simp [scanGo]
  | cons b rest ih =>
    intro l2 i st
    show scanGo (i + 1) (scanStep st i b) (rest ++ l2) = _
    rw [ih]
    have : i + 1 + rest.length = i + (rest.length + 1) := by omega
    rw [this]
    rfl

/-- Scanning printable bytes only extends the run: the emitted strings
never change. -/
theorem scanGo_printable_strings :
    ∀ (run : List Nat), (∀ b ∈ run, 32 ≤ b ∧ b ≤ 126) →
      ∀ (i : Nat) (st : ScanState), (scanGo i st run).strings = st.strings := by
  intro run
  induction run with
  | nil => intro _ i st; rfl
  | cons b rest ih =>
    intro h i st
    have hb := h b (List.mem_cons_self b rest)
    show (scanGo (i + 1) (scanStep st i b) rest).strings = st.strings
    rw [ih (fun x hx => h x (List.mem_cons_of_mem b hx))]
    unfold scanStep
    rw [if_neg (by omega), if_pos ⟨hb.1, hb.2⟩]

/-- The accumulated run only ever contains printable bytes: a flush
empties it and the only byte ever appended lies in 32..126. -/
theorem scanGo_current_printable :
    ∀ (l : List Nat) (i : Nat) (st : ScanState),
      (∀ b ∈ st.current, 32 ≤ b ∧ b ≤ 126) →
      ∀ b ∈ (scanGo i st l).current, 32 ≤ b ∧ b ≤ 126 := by
  intro l
  induction l with
  | nil => intro i st hst; exact hst
  | cons c rest ih =>
    intro i st hst
    apply ih (i + 1) (scanStep st i c)
    unfold scanStep
    by_cases hc0 : c = 0
    · rw [if_pos hc0]; intro b hb; simp at hb
    · rw [if_neg hc0]
      by_cases hcp : 32 ≤ c ∧ c ≤ 126
      · rw [if_pos hcp]
        intro b hb
        rcases List.mem_append.mp hb with hb | hb
        · exact hst b hb
        · rw [List.mem_singleton.mp hb]; exact hcp
      · rw [if_neg hcp]; intro b hb; simp at hb

/-- Folding the decoder over bytes below 128 from a clean state simply
appends them, staying clean. -/
theorem utf8Step_foldl_ascii :
    ∀ {l : List Nat}, (∀ b ∈ l, b < 128) → ∀ done,
      l.foldl utf8Step (some ⟨done, none⟩) = some ⟨done ++ l, none⟩ := by
  intro l
  induction l with
  | nil => intro _ done; simp
  | cons b rest ih =>
    intro h done
    have hb : b < 128 := h b (List.mem_cons_self b rest)
    have hstep : utf8Step (some ⟨done, none⟩) b = some ⟨done ++ [b], none⟩ := by
      simp [utf8Step, hb]
    rw [List.foldl_cons, hstep,
      ih (fun x hx => h x (List.mem_cons_of_mem b hx)) (done ++ [b])]
    simp

/-- A byte list of values below 128 decodes as itself. -/
theorem utf8Decode_ascii {l : List Nat} (h : ∀ b ∈ l, b < 128) :
    utf8Decode l = some l := by
  unfold utf8Decode
  rw [utf8Step_foldl_ascii h []]
  rfl

/-- On a printable run, the flush emits exactly when the run's length
exceeds 2: the decode always succeeds and reproduces the bytes, and the
below-128 re-check always passes. -/
theorem flushRun_printable {i : Nat} {cur : List Nat}
    (h : ∀ b ∈ cur, 32 ≤ b ∧ b ≤ 126) :
    flushRun i cur = if 2 < cur.length then [(i - cur.length, cur)] else [] := by
  have hd : utf8Decode cur = some cur :=
    utf8Decode_ascii (fun b hb => by have := h b hb; omega)
  by_cases hl : 2 < cur.length
  · have hall : cur.all (fun c => decide (c < 128)) = true := by
      rw [List.all_eq_true]
      intro b hb
      exact decide_eq_true (by have := h b hb; omega)
    simp [flushRun, hd, hl, hall]
  · simp [flushRun, hd, hl]

/-- Claim C3 counterexample: the buffer `b"ABCD"` ends in a printable run
of length 4 that is still in progress at end-of-buffer, yet the scanner
emits nothing — whereas the same run terminated by a null byte inside the
buffer is emitted.  The trailing run is therefore NOT evaluated by the
interior rule. -/
theorem string_scanner_flush_counterexample :
    extractStrings [65, 66, 67, 68] = []
    ∧ extractStrings [65, 66, 67, 68, 0] = [(0, [65, 66, 67, 68])] := by
  decide

/-- Claim C3 (amended): a run in progress at end-of-buffer is discarded,
never evaluated — appending any all-printable suffix to a buffer leaves
the extracted strings unchanged; only runs terminated by a null or other
non-printable byte inside the buffer are ever emitted. -/
theorem string_scanner_trailing_run_discarded :
    ∀ (data run : List Nat), (∀ b ∈ run, 32 ≤ b ∧ b ≤ 126) →
      extractStrings (data ++ run) = extractStrings data := by
  intro data run h
  unfold extractStrings
  rw [scanGo_append]
  rw [scanGo_printable_strings run h]

/-- Witness for the amended C3 at a concrete input: appending the
printable run `b"ABC"` after `b"\x00"` changes nothing. -/
theorem string_scanner_trailing_run_discarded_witness :
    extractStrings ([0] ++ [65, 66, 67]) = extractStrings [0] :=
  string_scanner_trailing_run_discarded [0] [65, 66, 67] (by decide)

/-- Claim C9: the decode guard is unreachable.  Every accumulated run
consists only of bytes 32..126 (the invariant is preserved from any state
whose run already satisfies it, in particular the initial empty run), and
on such a run the UTF-8 decode always succeeds, returning the same bytes
(each below 128), so the flush emits exactly when the run's length
exceeds 2 — the decode-failure branch and the below-128 re-check never
reject a run of length greater than 2. -/
theorem string_scanner_decode_guard_unreachable :
    (∀ (data : List Nat) (i : Nat) (st : ScanState),
      (∀ b ∈ st.current, 32 ≤ b ∧ b ≤ 126) →
      ∀ b ∈ (scanGo i st data).current, 32 ≤ b ∧ b ≤ 126)
    ∧ (∀ (i : Nat) (cur : List Nat), (∀ b ∈ cur, 32 ≤ b ∧ b ≤ 126) →
      utf8Decode cur = some cur ∧
      flushRun i cur = if 2 < cur.length then [(i - cur.length, cur)] else []) := by
  constructor
  · intro data i st hst
    exact scanGo_current_printable data i st hst
  · intro i cur h
    exact ⟨utf8Decode_ascii (fun b hb => by have := h b hb; omega),
      flushRun_printable h⟩

/-- Witness for C9 at concrete inputs: the run after scanning `b"Hi!"`
is printable, and flushing `b"Hi!"` at index 3 emits `(0, "Hi!")`. -/
theorem string_scanner_decode_guard_unreachable_witness :
    (32 ≤ 72 ∧ 72 ≤ 126)
    ∧ utf8Decode [72, 105, 33] = some [72, 105, 33]
    ∧ flushRun 3 [72, 105, 33] = [(0, [72, 105, 33])] := by
  refine ⟨?_, ?_, ?_⟩
  · exact string_scanner_decode_guard_unreachable.1 [72, 105, 33] 0 ⟨[], []⟩
      (by intro b hb; simp at hb) 72 (by decide)
  · exact (string_scanner_decode_guard_unreachable.2 3 [72, 105, 33] (by decide)).1
  · have h := (string_scanner_decode_guard_unreachable.2 3 [72, 105, 33] (by decide)).2
    simpa using h

/-! Helper lemmas about the field guesser. -/

/-- The strict rational bound `10 < v / 44100` is the integer bound
`441000 < v`. -/
theorem ten_lt_div_iff (v : Nat) : (10 : ℚ) < (v : ℚ) / 44100 ↔ 441000 < v := by
  rw [lt_div_iff₀ (by norm_num : (0 : ℚ) < 44100)]
  rw [show (10 : ℚ) * 44100 = ((441000 : Nat) : ℚ) by norm_num, Nat.cast_lt]

/-- The strict rational bound `v / 44100 < 300` is the integer bound
`v < 13230000`. -/
theorem div_lt_three_hundred_iff (v : Nat) :
    (v : ℚ) / 44100 < 300 ↔ v < 13230000 := by
  rw [div_lt_iff₀ (by norm_num : (0 : ℚ) < 44100)]
  rw [show (300 : ℚ) * 44100 = ((13230000 : Nat) : ℚ) by norm_num, Nat.cast_lt]

/-- The filter in integer form: since `13230000 > 10000000`, the upper
seconds bound is subsumed and the filter accepts exactly
`441000 < v < 10000000`. -/
theorem fieldFilter_iff (v : Nat) :
    fieldFilter v = true ↔ 441000 < v ∧ v < 10000000 := by
  unfold fieldFilter
  rw [Bool.and_eq_true, decide_eq_true_iff, decide_eq_true_iff,
    ten_lt_div_iff, div_lt_three_hundred_iff]
  omega

/-- The filter rejects `v` whenever the integer form fails. -/
theorem fieldFilter_eq_false {v : Nat} (h : ¬(441000 < v ∧ v < 10000000)) :
    fieldFilter v = false := by
  cases hb : fieldFilter v
  · rfl
  · exact absurd ((fieldFilter_iff v).mp hb) h

/-- The offsets Python's `range(0, m, 4)` visits are exactly the
multiples of 4 strictly below `m`. -/
theorem pyStride4_mem (m i : Nat) : i ∈ pyStride4 m ↔ i % 4 = 0 ∧ i < m := by
  unfold pyStride4
  rw [List.mem_map]
  constructor
  · rintro ⟨k, hk, rfl⟩
    rw [List.mem_range] at hk
    have h4 : (k + 1) * 4 ≤ m + 3 :=
      (Nat.le_div_iff_mul_le (by norm_num)).mp hk
    exact ⟨Nat.mul_mod_left k 4, by omega⟩
  · rintro ⟨h1, h2⟩
    refine ⟨i / 4, ?_, Nat.div_mul_cancel (Nat.dvd_of_mod_eq_zero h1)⟩
    rw [List.mem_range]
    have hi : i / 4 * 4 = i := Nat.div_mul_cancel (Nat.dvd_of_mod_eq_zero h1)
    rw [Nat.lt_iff_add_one_le, Nat.le_div_iff_mul_le (by norm_num)]
    omega

/-- Membership in `guessFields` decomposes into membership in one
examined window's candidates. -/
theorem mem_guessFields (data : List Nat) (c : Nat × Nat × ℚ) :
    c ∈ guessFields data ↔
      ∃ i ∈ pyStride4 (data.length - 4), c ∈ candidatesAt data i := by
  unfold guessFields
  rw [List.mem_flatten]
  constructor
  · rintro ⟨l, hl, hc⟩
    rw [List.mem_map] at hl
    obtain ⟨i, hi, rfl⟩ := hl
    exact ⟨i, hi, hc⟩
  · rintro ⟨i, hi, hc⟩
    exact ⟨candidatesAt data i, List.mem_map_of_mem _ hi, hc⟩

/-- Claim C4 counterexample: the buffer of length 8 holding the
little-endian bytes of 441001 in both of its aligned 4-byte windows.  The
window at offset `length - 4 = 4` would contribute a candidate, but
`range(0, len(data) - 4, 4)` stops before `length - 4`, so `guessFields`
only reports the offset-0 candidate. -/
theorem guess_fields_last_window_counterexample :
    guessFields [169, 186, 6, 0, 169, 186, 6, 0] =
      [(0, 441001, (441001 : ℚ) / 44100)]
    ∧ candidatesAt [169, 186, 6, 0, 169, 186, 6, 0] 4 =
      [(4, 441001, (441001 : ℚ) / 44100)] := by
  have h1 : fieldFilter 441001 = true := (fieldFilter_iff 441001).mpr (by omega)
  have h2 : fieldFilter 2847540736 = false := fieldFilter_eq_false (by omega)
  have hw0 : ((([169, 186, 6, 0, 169, 186, 6, 0] : List Nat).drop 0).take 4) =
      [169, 186, 6, 0] := by decide
  have hw4 : ((([169, 186, 6, 0, 169, 186, 6, 0] : List Nat).drop 4).take 4) =
      [169, 186, 6, 0] := by decide
  have hle : leVal [169, 186, 6, 0] = 441001 := by decide
  have hbe : beVal [169, 186, 6, 0] = 2847540736 := by decide
  have hc0 : candidatesAt [169, 186, 6, 0, 169, 186, 6, 0] 0 =
      [(0, 441001, (441001 : ℚ) / 44100)] := by
    unfold candidatesAt
    rw [hw0, hle, hbe, List.filter_cons, List.filter_cons]
    rw [if_pos h1, if_neg (by rw [h2]; exact Bool.false_ne_true)]
    simp
  have hc4 : candidatesAt [169, 186, 6, 0, 169, 186, 6, 0] 4 =
      [(4, 441001, (441001 : ℚ) / 44100)] := by
    unfold candidatesAt
    rw [hw4, hle, hbe, List.filter_cons, List.filter_cons]
    rw [if_pos h1, if_neg (by rw [h2]; exact Bool.false_ne_true)]
    simp
  refine ⟨?_, hc4⟩
  unfold guessFields
  rw [show pyStride4 (([169, 186, 6, 0, 169, 186, 6, 0] : List Nat).length - 4) =
    [0] from by decide]
  rw [List.map_singleton, hc0]
  rfl

/-- Claim C4 (amended): `guessFields` examines the 4-byte windows at
stride-4 offsets 0, 4, 8, … strictly below `length - 4`; the aligned
window at offset `length - 4` itself is never examined.  Every candidate
of an examined window is reported, and every reported candidate comes
from such a window. -/
theorem guess_fields_window_coverage :
    ∀ (data : List Nat),
      (∀ i, i % 4 = 0 → i + 4 < data.length →
        ∀ c ∈ candidatesAt data i, c ∈ guessFields data)
      ∧ (∀ c ∈ guessFields data,
        ∃ i, i % 4 = 0 ∧ i + 4 < data.length ∧ c ∈ candidatesAt data i) := by
  intro data
  constructor
  · intro i h1 h2 c hc
    rw [mem_guessFields]
    exact ⟨i, (pyStride4_mem _ i).mpr ⟨h1, by omega⟩, hc⟩
  · intro c hc
    rw [mem_guessFields] at hc
    obtain ⟨i, hi, hc⟩ := hc
    obtain ⟨h1, h2⟩ := (pyStride4_mem _ i).mp hi
    exact ⟨i, h1, by omega, hc⟩

/-- Witness for the amended C4: in a 12-byte buffer the aligned window at
offset 4 lies strictly below `length - 4 = 8` and its little-endian
candidate 441001 is reported. -/
theorem guess_fields_window_coverage_witness :
    (4, 441001, (441001 : ℚ) / 44100) ∈
      guessFields [0, 0, 0, 0, 169, 186, 6, 0, 0, 0, 0, 0] := by
  have h1 : fieldFilter 441001 = true := (fieldFilter_iff 441001).mpr (by omega)
  have h2 : fieldFilter 2847540736 = false := fieldFilter_eq_false (by omega)
  have hc4 : (4, 441001, (441001 : ℚ) / 44100) ∈
      candidatesAt [0, 0, 0, 0, 169, 186, 6, 0, 0, 0, 0, 0] 4 := by
    unfold candidatesAt
    rw [show ((([0, 0, 0, 0, 169, 186, 6, 0, 0, 0, 0, 0] : List Nat).drop 4).take 4) =
      [169, 186, 6, 0] from by decide]
    rw [show leVal [169, 186, 6, 0] = 441001 from by decide,
      show beVal [169, 186, 6, 0] = 2847540736 from by decide]
    rw [List.filter_cons, List.filter_cons]
    rw [if_pos h1, if_neg (by rw [h2]; exact Bool.false_ne_true)]
    simp
  exact (guess_fields_window_coverage _).1 4 (by decide) (by decide) _ hc4

/-- Claim C5: the plausibility filter accepts exactly when
`0 < v < 10000000` and `10 < v / 44100 < 300`, all strict; equivalently
`441000 < v < 10000000`; in particular 441000 is excluded, 441001 is
included, and 13230000 is excluded. -/
theorem field_filter_plausibility :
    (∀ v : Nat, fieldFilter v = true ↔
      (0 < v ∧ v < 10000000 ∧ 10 < (v : ℚ) / 44100 ∧ (v : ℚ) / 44100 < 300))
    ∧ (∀ v : Nat, fieldFilter v = true ↔ (441000 < v ∧ v < 10000000))
    ∧ fieldFilter 441000 = false
    ∧ fieldFilter 441001 = true
    ∧ fieldFilter 13230000 = false := by
  refine ⟨fun v => ?_, fieldFilter_iff, fieldFilter_eq_false (by omega),
    (fieldFilter_iff 441001).mpr (by omega), fieldFilter_eq_false (by omega)⟩
  unfold fieldFilter
  rw [Bool.and_eq_true, decide_eq_true_iff, decide_eq_true_iff]
  constructor
  · rintro ⟨⟨a, b⟩, c, d⟩; exact ⟨a, b, c, d⟩
  · rintro ⟨a, b, c, d⟩; exact ⟨⟨a, b⟩, c, d⟩

/-! BinaryDiff claims. -/

/-- Claim C6 counterexample: with `a = [1, 2]` and `b = [1]` the sizes
differ (2 versus 1) and `a` is the larger buffer, yet no
`trailing_extra_bytes` is reported — the suffix of the larger buffer is
only reported when `b` is larger. -/
theorem binary_diff_trailing_counterexample :
    (compare_files [1, 2] [1]).size_a = 2
    ∧ (compare_files [1, 2] [1]).size_b = 1
    ∧ (compare_files [1, 2] [1]).trailing_extra_bytes = none := by
  decide

/-- Claim C6 (amended): `trailing_extra_bytes` is present exactly when
`size_b > size_a`, holding the first 50 bytes of B's suffix beyond A's
length together with the full trailing length; when `size_a ≥ size_b`
(including `size_a > size_b`) nothing is reported. -/
theorem binary_diff_trailing_bytes :
    ∀ (a b : List Nat),
      (a.length < b.length →
        (compare_files a b).trailing_extra_bytes =
          some ((b.drop a.length).take 50, b.length - a.length))
      ∧ (b.length ≤ a.length →
        (compare_files a b).trailing_extra_bytes = none) := by
  intro a b
  constructor
  · intro h
    show (if a.length < b.length then
        some ((b.drop a.length).take 50, (b.drop a.length).length)
      else none) = _
    rw [if_pos h, List.length_drop]
  · intro h
    show (if a.length < b.length then
        some ((b.drop a.length).take 50, (b.drop a.length).length)
      else none) = none
    rw [if_neg (by omega)]

/-- Witness for the amended C6 at concrete inputs in both directions. -/
theorem binary_diff_trailing_bytes_witness :
    (compare_files [1] [1, 2, 3]).trailing_extra_bytes = some ([2, 3], 2)
    ∧ (compare_files [1, 2] [1]).trailing_extra_bytes = none := by
  constructor
  · have h := (binary_diff_trailing_bytes [1] [1, 2, 3]).1 (by decide)
    simpa using h
  · exact (binary_diff_trailing_bytes [1, 2] [1]).2 (by decide)

/-- Claim C7: error containment.  When loading fails with an I/O error,
`find_marker_strings` returns the empty result list together with the
printed diagnostic, and `compare_files` yields no report together with a
diagnostic, whichever file failed; in the embedding both operations are
total functions, so no exception escapes the boundary. -/
theorem error_containment :
    (∀ (e : String) (terms : List (List Nat)),
      find_marker_strings_io (LoadResult.ioError e) terms =
        ([], some ("Error reading file: " ++ e)))
    ∧ (∀ (e : String) (r : LoadResult),
      (compare_files_io (LoadResult.ioError e) r).1 = none
      ∧ (compare_files_io (LoadResult.ioError e) r).2 =
          some ("Error comparing files: " ++ e))
    ∧ (∀ (e : String) (r : LoadResult),
      (compare_files_io r (LoadResult.ioError e)).1 = none
      ∧ ∃ m, (compare_files_io r (LoadResult.ioError e)).2 = some m) := by
  refine ⟨fun e terms => rfl, fun e r => ?_, fun e r => ?_⟩
  · cases r <;> exact ⟨rfl, rfl⟩
  · cases r with
    | ok d => exact ⟨rfl, _, rfl⟩
    | ioError e2 => exact ⟨rfl, _, rfl⟩

end PTX
